import Mathlib

/-!
Verification of the BLE EEG acquisition core (`gui.py`).

The development shallowly embeds the decode/acquisition engine:
* `SCALE_FACTOR`, `signExt`, `decodeSubframe`, `process_frames` embed the
  channel-decoding part of `BLEWorker.process_packet` (lines 107-117);
* `drainLoop` / `notification_handler` embed the frame-synchronization loop of
  `BLEWorker.notification_handler` (lines 80-88);
* `observe` embeds the sequence-tracking and stats-emission part of
  `BLEWorker.process_packet` (lines 90-105);
* `send_cmd` embeds the decode-state effect of `MainWindow.send_cmd`
  (lines 219-229);
* `SampleSink` embeds the bounded `deque(maxlen=2500)` data queue together
  with the drain loop of `MainWindow.update_plot` (lines 245-249).

Bytes are modelled as natural numbers (a `bytearray` guarantees values < 256,
but the embeddings only assume it where the source does), Python's unbounded
integers as `ℤ`/`ℕ`, and float arithmetic as exact rational arithmetic.
-/

namespace EEG

/-- Line 17: `SCALE_FACTOR = (4.5 / 8388607 / 24.0) * 1000000`. -/
def SCALE_FACTOR : ℚ := (4.5 / 8388607 / 24.0) * 1000000

/-- Lines 112-113: the 24-bit sign extension applied to a decoded channel,
`if val & 0x800000: val -= 0x1000000`. -/
def signExt (val : ℕ) : ℤ :=
  if val &&& 0x800000 ≠ 0 then (val : ℤ) - 0x1000000 else (val : ℤ)

/-- Lines 110-114: decode the 8 channels of one sub-frame starting at
`offset`: `val = (data[idx] << 16) | (data[idx+1] << 8) | data[idx+2]`,
sign-extend, multiply by `SCALE_FACTOR`. -/
def decodeSubframe (data : List ℕ) (offset : ℕ) : List ℚ :=
  (List.range 8).map (fun i =>
    (signExt ((data.getD (offset + i * 3) 0 <<< 16 |||
               data.getD (offset + i * 3 + 1) 0 <<< 8) |||
               data.getD (offset + i * 3 + 2) 0) : ℚ) * SCALE_FACTOR)

/-- Lines 107-115: `for offset in [2, 26]`, decode both sub-frames. -/
def process_frames (data : List ℕ) : List (List ℚ) :=
  [decodeSubframe data 2, decodeSubframe data 26]

/-- The three big-endian bytes of a 24-bit code, as written by the
transmitting device (wire format of §6 of the spec). -/
def byteHi (c : ℕ) : ℕ := c / 65536 % 256

/-- Middle byte of a 24-bit big-endian code. -/
def byteMid (c : ℕ) : ℕ := c / 256 % 256

/-- Low byte of a 24-bit big-endian code. -/
def byteLo (c : ℕ) : ℕ := c % 256

/-- A 52-byte frame holding 16 known 24-bit channel codes: sentinel `0xA0`,
sequence byte, 16 big-endian 3-byte fields at offsets 2..49, two unused
bytes. -/
def mkFrame (s c0 c1 c2 c3 c4 c5 c6 c7 c8 c9 c10 c11 c12 c13 c14 c15 : ℕ) :
    List ℕ :=
  [0xA0, s,
   byteHi c0, byteMid c0, byteLo c0,
   byteHi c1, byteMid c1, byteLo c1,
   byteHi c2, byteMid c2, byteLo c2,
   byteHi c3, byteMid c3, byteLo c3,
   byteHi c4, byteMid c4, byteLo c4,
   byteHi c5, byteMid c5, byteLo c5,
   byteHi c6, byteMid c6, byteLo c6,
   byteHi c7, byteMid c7, byteLo c7,
   byteHi c8, byteMid c8, byteLo c8,
   byteHi c9, byteMid c9, byteLo c9,
   byteHi c10, byteMid c10, byteLo c10,
   byteHi c11, byteMid c11, byteLo c11,
   byteHi c12, byteMid c12, byteLo c12,
   byteHi c13, byteMid c13, byteLo c13,
   byteHi c14, byteMid c14, byteLo c14,
   byteHi c15, byteMid c15, byteLo c15,
   0, 0]

theorem or_eq_add_of_lt (k : ℕ) :
    ∀ a b : ℕ, b < 2 ^ k → 2 ^ k * a ||| b = 2 ^ k * a + b := by
  induction k with
  | zero =>
    intro a b hb
    interval_cases b
    simp
  | succ k ih =>
    intro a b hb
    have hp : 2 ^ (k + 1) * a = 2 * (2 ^ k * a) := by ring
    rw [hp]
    have hp2 : (2 : ℕ) ^ (k + 1) = 2 * 2 ^ k := by ring
    have hmod : (2 * (2 ^ k * a)) % 2 = 0 := Nat.mul_mod_right 2 _
    have hdiv : (2 * (2 ^ k * a)) / 2 = 2 ^ k * a := by omega
    have hb2 : b / 2 < 2 ^ k := by omega
    have hrec : (2 * (2 ^ k * a) ||| b) / 2 = 2 ^ k * a + b / 2 := by
      rw [Nat.or_div_two, hdiv, ih a (b / 2) hb2]
    have hiff := Nat.or_mod_two_eq_one (a := 2 * (2 ^ k * a)) (b := b)
    have hsplit := Nat.div_add_mod (2 * (2 ^ k * a) ||| b) 2
    omega

/-- Decoding the three big-endian bytes of a 24-bit code recovers the code. -/
theorem decode_bytes (c : ℕ) (h : c < 2 ^ 24) :
    (byteHi c <<< 16 ||| byteMid c <<< 8) ||| byteLo c = c := by
  have h1 : byteHi c <<< 16 ||| byteMid c <<< 8 =
      2 ^ 16 * byteHi c + byteMid c * 2 ^ 8 := by
    rw [Nat.shiftLeft_eq, Nat.shiftLeft_eq, Nat.mul_comm (byteHi c)]
    exact or_eq_add_of_lt 16 (byteHi c) (byteMid c * 2 ^ 8)
      (by have : byteMid c < 256 := Nat.mod_lt _ (by norm_num); omega)
  rw [h1]
  have h2 : 2 ^ 16 * byteHi c + byteMid c * 2 ^ 8 =
      2 ^ 8 * (2 ^ 8 * byteHi c + byteMid c) := by ring
  rw [h2, or_eq_add_of_lt 8 _ (byteLo c)
    (by have : byteLo c < 256 := Nat.mod_lt _ (by norm_num); omega)]
  unfold byteHi byteMid byteLo
  omega

/-- C1: decoding a 52-byte frame built from 16 known 24-bit codes yields, for
each 3-byte big-endian field at offsets 2..25 and 26..49, the unsigned 24-bit
integer sign-extended by subtracting 2^24 when bit 0x800000 is set, multiplied
by `SCALE_FACTOR`; in particular code 0x800000 decodes to -8388608 * SCALE and
code 0x7FFFFF decodes to 8388607 * SCALE. -/
theorem decode_roundtrip (s c0 c1 c2 c3 c4 c5 c6 c7 c8 c9 c10 c11 c12 c13 c14
    c15 : ℕ)
    (h0 : c0 < 2 ^ 24) (h1 : c1 < 2 ^ 24) (h2 : c2 < 2 ^ 24)
    (h3 : c3 < 2 ^ 24) (h4 : c4 < 2 ^ 24) (h5 : c5 < 2 ^ 24)
    (h6 : c6 < 2 ^ 24) (h7 : c7 < 2 ^ 24) (h8 : c8 < 2 ^ 24)
    (h9 : c9 < 2 ^ 24) (h10 : c10 < 2 ^ 24) (h11 : c11 < 2 ^ 24)
    (h12 : c12 < 2 ^ 24) (h13 : c13 < 2 ^ 24) (h14 : c14 < 2 ^ 24)
    (h15 : c15 < 2 ^ 24) :
    process_frames (mkFrame s c0 c1 c2 c3 c4 c5 c6 c7 c8 c9 c10 c11 c12 c13
        c14 c15) =
      [[(signExt c0 : ℚ) * SCALE_FACTOR, (signExt c1 : ℚ) * SCALE_FACTOR,
        (signExt c2 : ℚ) * SCALE_FACTOR, (signExt c3 : ℚ) * SCALE_FACTOR,
        (signExt c4 : ℚ) * SCALE_FACTOR, (signExt c5 : ℚ) * SCALE_FACTOR,
        (signExt c6 : ℚ) * SCALE_FACTOR, (signExt c7 : ℚ) * SCALE_FACTOR],
       [(signExt c8 : ℚ) * SCALE_FACTOR, (signExt c9 : ℚ) * SCALE_FACTOR,
        (signExt c10 : ℚ) * SCALE_FACTOR, (signExt c11 : ℚ) * SCALE_FACTOR,
        (signExt c12 : ℚ) * SCALE_FACTOR, (signExt c13 : ℚ) * SCALE_FACTOR,
        (signExt c14 : ℚ) * SCALE_FACTOR, (signExt c15 : ℚ) * SCALE_FACTOR]] ∧
    signExt 0x800000 = -8388608 ∧ signExt 0x7FFFFF = 8388607 := by
  refine ⟨?_, by decide, by decide⟩
  have e0 := decode_bytes c0 h0
  have e1 := decode_bytes c1 h1
  have e2 := decode_bytes c2 h2
  have e3 := decode_bytes c3 h3
  have e4 := decode_bytes c4 h4
  have e5 := decode_bytes c5 h5
  have e6 := decode_bytes c6 h6
  have e7 := decode_bytes c7 h7
  have e8 := decode_bytes c8 h8
  have e9 := decode_bytes c9 h9
  have e10 := decode_bytes c10 h10
  have e11 := decode_bytes c11 h11
  have e12 := decode_bytes c12 h12
  have e13 := decode_bytes c13 h13
  have e14 := decode_bytes c14 h14
  have e15 := decode_bytes c15 h15
  calc process_frames (mkFrame s c0 c1 c2 c3 c4 c5 c6 c7 c8 c9 c10 c11 c12
          c13 c14 c15)
      = [[(signExt ((byteHi c0 <<< 16 ||| byteMid c0 <<< 8) ||| byteLo c0) : ℚ)
            * SCALE_FACTOR,
          (signExt ((byteHi c1 <<< 16 ||| byteMid c1 <<< 8) ||| byteLo c1) : ℚ)
            * SCALE_FACTOR,
          (signExt ((byteHi c2 <<< 16 ||| byteMid c2 <<< 8) ||| byteLo c2) : ℚ)
            * SCALE_FACTOR,
          (signExt ((byteHi c3 <<< 16 ||| byteMid c3 <<< 8) ||| byteLo c3) : ℚ)
            * SCALE_FACTOR,
          (signExt ((byteHi c4 <<< 16 ||| byteMid c4 <<< 8) ||| byteLo c4) : ℚ)
            * SCALE_FACTOR,
          (signExt ((byteHi c5 <<< 16 ||| byteMid c5 <<< 8) ||| byteLo c5) : ℚ)
            * SCALE_FACTOR,
          (signExt ((byteHi c6 <<< 16 ||| byteMid c6 <<< 8) ||| byteLo c6) : ℚ)
            * SCALE_FACTOR,
          (signExt ((byteHi c7 <<< 16 ||| byteMid c7 <<< 8) ||| byteLo c7) : ℚ)
            * SCALE_FACTOR],
         [(signExt ((byteHi c8 <<< 16 ||| byteMid c8 <<< 8) ||| byteLo c8) : ℚ)
            * SCALE_FACTOR,
          (signExt ((byteHi c9 <<< 16 ||| byteMid c9 <<< 8) ||| byteLo c9) : ℚ)
            * SCALE_FACTOR,
          (signExt ((byteHi c10 <<< 16 ||| byteMid c10 <<< 8) ||| byteLo c10) :
            ℚ) * SCALE_FACTOR,
          (signExt ((byteHi c11 <<< 16 ||| byteMid c11 <<< 8) ||| byteLo c11) :
            ℚ) * SCALE_FACTOR,
          (signExt ((byteHi c12 <<< 16 ||| byteMid c12 <<< 8) ||| byteLo c12) :
            ℚ) * SCALE_FACTOR,
          (signExt ((byteHi c13 <<< 16 ||| byteMid c13 <<< 8) ||| byteLo c13) :
            ℚ) * SCALE_FACTOR,
          (signExt ((byteHi c14 <<< 16 ||| byteMid c14 <<< 8) ||| byteLo c14) :
            ℚ) * SCALE_FACTOR,
          (signExt ((byteHi c15 <<< 16 ||| byteMid c15 <<< 8) ||| byteLo c15) :
            ℚ) * SCALE_FACTOR]] := rfl
    _ = _ := by rw [e0, e1, e2, e3, e4, e5, e6, e7, e8, e9, e10, e11, e12, e13,
          e14, e15]

/-- Witness for C1: the round-trip theorem applied to the frame holding codes
0x800000 and 0x7FFFFF (all other channels 0). -/
theorem decode_roundtrip_witness :
    (0x800000 : ℕ) < 2 ^ 24 ∧
    (process_frames (mkFrame 0 0x800000 0x7FFFFF 0 0 0 0 0 0 0 0 0 0 0 0 0 0) =
      [[(signExt 0x800000 : ℚ) * SCALE_FACTOR,
        (signExt 0x7FFFFF : ℚ) * SCALE_FACTOR,
        (signExt 0 : ℚ) * SCALE_FACTOR, (signExt 0 : ℚ) * SCALE_FACTOR,
        (signExt 0 : ℚ) * SCALE_FACTOR, (signExt 0 : ℚ) * SCALE_FACTOR,
        (signExt 0 : ℚ) * SCALE_FACTOR, (signExt 0 : ℚ) * SCALE_FACTOR],
       [(signExt 0 : ℚ) * SCALE_FACTOR, (signExt 0 : ℚ) * SCALE_FACTOR,
        (signExt 0 : ℚ) * SCALE_FACTOR, (signExt 0 : ℚ) * SCALE_FACTOR,
        (signExt 0 : ℚ) * SCALE_FACTOR, (signExt 0 : ℚ) * SCALE_FACTOR,
        (signExt 0 : ℚ) * SCALE_FACTOR, (signExt 0 : ℚ) * SCALE_FACTOR]] ∧
     signExt 0x800000 = -8388608 ∧ signExt 0x7FFFFF = 8388607) :=
  ⟨by decide,
   decode_roundtrip 0 0x800000 0x7FFFFF 0 0 0 0 0 0 0 0 0 0 0 0 0 0
     (by decide) (by decide) (by decide) (by decide) (by decide) (by decide)
     (by decide) (by decide) (by decide) (by decide) (by decide) (by decide)
     (by decide) (by decide) (by decide) (by decide)⟩

/-!
### FrameSynchronizer (`BLEWorker.notification_handler`, lines 80-88)

`drainLoop` is the `while len(self.rx_buffer) >= 52` loop: as long as 52 bytes
are buffered, either pop one misaligned byte from the front
(`self.rx_buffer.pop(0)`) or cut the next 52 bytes out as one packet.  It
returns the emitted packets in order, the remaining buffer, and the number of
discarded bytes.
-/

def drainLoop (buf : List ℕ) : List (List ℕ) × List ℕ × ℕ :=
  if h : 52 ≤ buf.length then
    if buf.getD 0 0 = 0xA0 then
      ((buf.take 52) :: (drainLoop (buf.drop 52)).1,
       (drainLoop (buf.drop 52)).2.1, (drainLoop (buf.drop 52)).2.2)
    else
      ((drainLoop (buf.drop 1)).1, (drainLoop (buf.drop 1)).2.1,
       (drainLoop (buf.drop 1)).2.2 + 1)
  else ([], buf, 0)
termination_by buf.length
decreasing_by
  · simp only [List.length_drop]
    omega
  · simp only [List.length_drop]
    omega

/-- Lines 80-88: one notification appends the chunk to the accumulator and
runs the extraction loop.  The state is (packets processed so far, byte
accumulator, bytes discarded so far). -/
def notification_handler (st : List (List ℕ) × List ℕ × ℕ)
    (data : List ℕ) : List (List ℕ) × List ℕ × ℕ :=
  (st.1 ++ (drainLoop (st.2.1 ++ data)).1,
   (drainLoop (st.2.1 ++ data)).2.1,
   st.2.2 + (drainLoop (st.2.1 ++ data)).2.2)

/-- Feeding a list of chunks one notification at a time, starting from an
empty accumulator. -/
def ingestChunks (chunks : List (List ℕ)) : List (List ℕ) × List ℕ × ℕ :=
  chunks.foldl notification_handler ([], [], 0)

theorem drainLoop_of_lt {buf : List ℕ} (h : buf.length < 52) :
    drainLoop buf = ([], buf, 0) := by
  rw [drainLoop, dif_neg (by omega)]

theorem drainLoop_rest_lt_aux :
    ∀ (n : ℕ) (buf : List ℕ), buf.length ≤ n →
      (drainLoop buf).2.1.length < 52 := by
  intro n
  induction n with
  | zero =>
    intro buf h
    have : buf.length < 52 := by omega
    rw [drainLoop_of_lt this]
    simpa using this
  | succ n ih =>
    intro buf h
    by_cases h52 : 52 ≤ buf.length
    · rw [drainLoop, dif_pos h52]
      by_cases hs : buf.getD 0 0 = 0xA0
      · rw [if_pos hs]
        exact ih (buf.drop 52) (by simp only [List.length_drop]; omega)
      · rw [if_neg hs]
        exact ih (buf.drop 1) (by simp only [List.length_drop]; omega)
    · rw [drainLoop_of_lt (by omega)]
      simp only []
      omega

/-- After the extraction loop finishes, the accumulator holds fewer than 52
bytes. -/
theorem drainLoop_rest_lt (buf : List ℕ) : (drainLoop buf).2.1.length < 52 :=
  drainLoop_rest_lt_aux buf.length buf le_rfl

theorem drainLoop_append_aux :
    ∀ (n : ℕ) (a c : List ℕ), a.length ≤ n →
      drainLoop (a ++ c) =
        ((drainLoop a).1 ++ (drainLoop ((drainLoop a).2.1 ++ c)).1,
         (drainLoop ((drainLoop a).2.1 ++ c)).2.1,
         (drainLoop a).2.2 + (drainLoop ((drainLoop a).2.1 ++ c)).2.2) := by
  intro n
  induction n with
  | zero =>
    intro a c h
    have ha : a = [] := List.length_eq_zero.mp (by omega)
    subst ha
    have h0 : drainLoop ([] : List ℕ) = ([], [], 0) :=
      drainLoop_of_lt (by simp)
    rw [h0]
    simp
  | succ n ih =>
    intro a c h
    by_cases h52 : 52 ≤ a.length
    · have hlen : 52 ≤ (a ++ c).length := by
        simp only [List.length_append]
        omega
      have hget : (a ++ c).getD 0 0 = a.getD 0 0 :=
        List.getD_append a c 0 0 (by omega)
      by_cases hs : a.getD 0 0 = 0xA0
      · have htake : (a ++ c).take 52 = a.take 52 :=
          List.take_append_of_le_length (by omega)
        have hdrop : (a ++ c).drop 52 = a.drop 52 ++ c :=
          List.drop_append_of_le_length (by omega)
        have hrec := ih (a.drop 52) c (by simp only [List.length_drop]; omega)
        have hL : drainLoop a =
            (a.take 52 :: (drainLoop (a.drop 52)).1,
             (drainLoop (a.drop 52)).2.1, (drainLoop (a.drop 52)).2.2) := by
          rw [drainLoop, dif_pos h52, if_pos hs]
        rw [drainLoop, dif_pos hlen, if_pos (hget.trans hs), htake, hdrop,
          hrec, hL]
        simp
      · have hdrop : (a ++ c).drop 1 = a.drop 1 ++ c :=
          List.drop_append_of_le_length (by omega)
        have hrec := ih (a.drop 1) c (by simp only [List.length_drop]; omega)
        have hL : drainLoop a =
            ((drainLoop (a.drop 1)).1, (drainLoop (a.drop 1)).2.1,
             (drainLoop (a.drop 1)).2.2 + 1) := by
          rw [drainLoop, dif_pos h52, if_neg hs]
        rw [drainLoop, dif_pos hlen, if_neg (by rw [hget]; exact hs), hdrop,
          hrec, hL]
        have hc : (drainLoop (a.drop 1)).2.2 +
            (drainLoop ((drainLoop (a.drop 1)).2.1 ++ c)).2.2 + 1 =
            (drainLoop (a.drop 1)).2.2 + 1 +
            (drainLoop ((drainLoop (a.drop 1)).2.1 ++ c)).2.2 := by omega
        rw [hc]
    · have h0 : drainLoop a = ([], a, 0) := drainLoop_of_lt (by omega)
      rw [h0]
      simp

/-- Draining `a ++ c` is draining `a`, then draining its residue with `c`
appended; packets concatenate and discard counts add. -/
theorem drainLoop_append (a c : List ℕ) :
    drainLoop (a ++ c) =
      ((drainLoop a).1 ++ (drainLoop ((drainLoop a).2.1 ++ c)).1,
       (drainLoop ((drainLoop a).2.1 ++ c)).2.1,
       (drainLoop a).2.2 + (drainLoop ((drainLoop a).2.1 ++ c)).2.2) :=
  drainLoop_append_aux a.length a c le_rfl

theorem foldl_notification_handler (chunks : List (List ℕ)) :
    ∀ (fs : List (List ℕ)) (buf : List ℕ) (n : ℕ), buf.length < 52 →
      chunks.foldl notification_handler (fs, buf, n) =
        (fs ++ (drainLoop (buf ++ chunks.flatten)).1,
         (drainLoop (buf ++ chunks.flatten)).2.1,
         n + (drainLoop (buf ++ chunks.flatten)).2.2) := by
  induction chunks with
  | nil =>
    intro fs buf n h
    simp [drainLoop_of_lt h]
  | cons ch rest ih =>
    intro fs buf n h
    rw [List.foldl_cons]
    show rest.foldl notification_handler
        (fs ++ (drainLoop (buf ++ ch)).1, (drainLoop (buf ++ ch)).2.1,
         n + (drainLoop (buf ++ ch)).2.2) = _
    rw [ih _ _ _ (drainLoop_rest_lt (buf ++ ch))]
    have hj : buf ++ (ch :: rest).flatten = (buf ++ ch) ++ rest.flatten := by
      rw [List.flatten_cons, List.append_assoc]
    rw [hj, drainLoop_append (buf ++ ch) rest.flatten,
      List.append_assoc fs, Nat.add_assoc]

/-- C2: feeding a byte stream to the notification handler in arbitrary
consecutive chunks, starting from an empty accumulator, emits the same ordered
sequence of 52-byte frames as feeding the whole stream in one call (and leaves
the same accumulator and discard count). -/
theorem ingest_chunk_independent (chunks : List (List ℕ)) :
    ingestChunks chunks =
      ((drainLoop chunks.flatten).1, (drainLoop chunks.flatten).2.1,
       (drainLoop chunks.flatten).2.2) := by
  show chunks.foldl notification_handler ([], [], 0) = _
  rw [foldl_notification_handler chunks [] [] 0 (by simp)]
  simp

/-- C7: a stream of k non-sentinel garbage bytes followed by one
sentinel-aligned 52-byte frame makes the handler discard exactly the k
garbage bytes and emit exactly that frame. -/
theorem ingest_discards_garbage (g f : List ℕ)
    (hg : ∀ b ∈ g, b ≠ 0xA0) (hf : f.length = 52) (hs : f.getD 0 0 = 0xA0) :
    drainLoop (g ++ f) = ([f], [], g.length) := by
  induction g with
  | nil =>
    rw [List.nil_append, drainLoop, dif_pos (by omega), if_pos hs]
    have ht : f.take 52 = f := by
      rw [← hf]
      exact List.take_length f
    have hd : f.drop 52 = [] := by
      rw [← hf]
      exact List.drop_length f
    rw [ht, hd, drainLoop_of_lt (by simp)]
    simp
  | cons b g ih =>
    have hb : b ≠ 0xA0 := hg b (by simp)
    have hlen : 52 ≤ (b :: (g ++ f)).length := by
      simp [List.length_append]
      omega
    rw [List.cons_append, drainLoop, dif_pos hlen,
      if_neg (by simpa using hb)]
    have hd : (b :: (g ++ f)).drop 1 = g ++ f := rfl
    rw [hd, ih (fun x hx => hg x (by simp [hx]))]
    simp

/-- Witness for C7: two garbage bytes before an all-zero frame are discarded
and the frame is emitted. -/
theorem ingest_discards_garbage_witness :
    (∀ b ∈ [0x00, 0x01], b ≠ 0xA0) ∧
    (0xA0 :: List.replicate 51 0).length = 52 ∧
    (0xA0 :: List.replicate 51 0).getD 0 0 = 0xA0 ∧
    drainLoop ([0x00, 0x01] ++ (0xA0 :: List.replicate 51 0)) =
      ([0xA0 :: List.replicate 51 0], [], 2) :=
  ⟨by decide, by simp, by simp,
   ingest_discards_garbage [0x00, 0x01] (0xA0 :: List.replicate 51 0)
     (by decide) (by simp) (by simp)⟩

/-- C9: whenever the notification handler returns, the byte accumulator holds
strictly fewer than 52 bytes, for every starting state and received chunk. -/
theorem accumulator_lt_frame_size (fs : List (List ℕ)) (acc : List ℕ)
    (n : ℕ) (chunk : List ℕ) :
    (notification_handler (fs, acc, n) chunk).2.1.length < 52 :=
  drainLoop_rest_lt (acc ++ chunk)

/-!
### StreamStats (`BLEWorker.process_packet`, lines 90-105)

The sequence-tracking state of `BLEWorker`: `last_seq` starts at `-1`
(line 38) and afterwards holds the last sequence byte, `expected` and
`received` are the cumulative counters (lines 39-40).  Python's
`(seq - self.last_seq) & 0xFF` on possibly-negative ints equals the
nonnegative residue `(seq - last_seq) % 256`, which is what `Int.emod`
computes.  The emitted value models the `loss` argument of `stats_cb`;
the `fps` argument depends on wall-clock time and is not modelled.
-/

structure Stats where
  last_seq : ℤ
  expected : ℕ
  received : ℕ
  deriving DecidableEq, Repr

/-- Lines 38-40: the state before any packet is processed. -/
def initStats : Stats := ⟨-1, 0, 0⟩

/-- Line 101: `((expected - received) / expected) * 100 if expected > 0
else 0`. -/
def lossPct (expected received : ℕ) : ℚ :=
  if expected > 0 then (((expected : ℚ) - received) / expected) * 100 else 0

/-- Lines 91-105: process one sequence byte: update the tracker (lines 91-98)
and, when `received % 50 == 0`, emit the loss percentage (lines 100-105). -/
def observe (st : Stats) (seq : ℕ) : Stats × Option ℚ :=
  let s1 : Stats :=
    if st.last_seq ≠ -1 then
      { last_seq := (seq : ℤ),
        expected := st.expected + (((seq : ℤ) - st.last_seq) % 256).toNat,
        received := st.received + 1 }
    else
      { st with last_seq := (seq : ℤ) }
  (s1, if s1.received % 50 = 0 then some (lossPct s1.expected s1.received)
       else none)

/-- Fold `observe` over a list of sequence bytes, keeping the final state. -/
def observeTrace (st : Stats) : List ℕ → Stats
  | [] => st
  | x :: xs => observeTrace (observe st x).1 xs

/-- Fold `observe` over a list of sequence bytes, keeping every per-packet
emission (including the `none`s) in order. -/
def emitsTrace (st : Stats) : List ℕ → List (Option ℚ)
  | [] => []
  | x :: xs => (observe st x).2 :: emitsTrace (observe st x).1 xs

/-- C3: after the first observation the tracker adds `(seq - last_seq) mod
256` to `expected` and 1 to `received`; `[10, 11, 12]` ends with
`expected = received = 2`, `[254, 255, 0, 1]` ends with
`expected = received = 3`, and a 255 → 0 wraparound always contributes
`diff = 1`. -/
theorem sequence_tracking (st : Stats) (seq : ℕ) :
    (st.last_seq ≠ -1 →
      (observe st seq).1.expected =
        st.expected + (((seq : ℤ) - st.last_seq) % 256).toNat ∧
      (observe st seq).1.received = st.received + 1) ∧
    (observeTrace initStats [10, 11, 12]).expected = 2 ∧
    (observeTrace initStats [10, 11, 12]).received = 2 ∧
    (observeTrace initStats [254, 255, 0, 1]).expected = 3 ∧
    (observeTrace initStats [254, 255, 0, 1]).received = 3 ∧
    (st.last_seq = 255 →
      (observe st 0).1.expected = st.expected + 1) := by
  refine ⟨fun h => ?_, by decide, by decide, by decide, by decide,
    fun h => ?_⟩
  · simp [observe, h]
  · have hne : st.last_seq ≠ -1 := by omega
    simp [observe, hne, h]

/-- Witness for C3: the tracker applied after a concrete state with
`last_seq = 255`. -/
theorem sequence_tracking_witness :
    (((255 : ℤ) ≠ -1 →
      (observe ⟨255, 7, 4⟩ 0).1.expected =
        7 + (((0 : ℤ) - 255) % 256).toNat ∧
      (observe ⟨255, 7, 4⟩ 0).1.received = 4 + 1) ∧
    (observeTrace initStats [10, 11, 12]).expected = 2 ∧
    (observeTrace initStats [10, 11, 12]).received = 2 ∧
    (observeTrace initStats [254, 255, 0, 1]).expected = 3 ∧
    (observeTrace initStats [254, 255, 0, 1]).received = 3 ∧
    ((255 : ℤ) = 255 → (observe ⟨255, 7, 4⟩ 0).1.expected = 7 + 1)) ∧
    (observe ⟨255, 7, 4⟩ 0).1.expected = 7 + 1 :=
  ⟨sequence_tracking ⟨255, 7, 4⟩ 0,
   (sequence_tracking ⟨255, 7, 4⟩ 0).2.2.2.2.2 rfl⟩

theorem observe_fst_of_ne (st : Stats) (seq : ℕ) (h : st.last_seq ≠ -1) :
    (observe st seq).1 =
      ⟨(seq : ℤ), st.expected + (((seq : ℤ) - st.last_seq) % 256).toNat,
       st.received + 1⟩ := by
  simp [observe, h]

theorem observe_snd_of_ne (st : Stats) (seq : ℕ) (h : st.last_seq ≠ -1) :
    (observe st seq).2 =
      if (st.received + 1) % 50 = 0 then
        some (lossPct (st.expected + (((seq : ℤ) - st.last_seq) % 256).toNat)
          (st.received + 1))
      else none := by
  simp [observe, h]

/-- From any post-first-observation state, the k-th subsequent packet (counted
from 0) produces an emission exactly when the received counter it reaches is a
multiple of 50. -/
theorem emits_pos_aux :
    ∀ (tr : List ℕ) (st : Stats) (k : ℕ), st.last_seq ≠ -1 →
      k < tr.length →
      ((emitsTrace st tr).getD k none ≠ none ↔
        (st.received + k + 1) % 50 = 0) := by
  intro tr
  induction tr with
  | nil =>
    intro st k _ hk
    simp at hk
  | cons x xs ih =>
    intro st k h hk
    cases k with
    | zero =>
      show (observe st x).2 ≠ none ↔ _
      rw [observe_snd_of_ne st x h]
      split <;> simp_all
    | succ k =>
      show (emitsTrace (observe st x).1 xs).getD k none ≠ none ↔ _
      rw [observe_fst_of_ne st x h]
      have hk2 : k < xs.length := by
        simp at hk
        omega
      rw [ih ⟨(x : ℤ), _, _⟩ k (by simp) hk2]
      constructor <;> intro hh <;> [skip; skip] <;>
        (simp only [] at hh ⊢; omega)

/-- C5 counterexample: on the very first observation (from the initial state,
where nothing has been received yet) the code already emits a stats tuple,
because `received = 0` satisfies `received % 50 == 0`. -/
theorem first_observation_emits : ¬((observe initStats 10).2 = none) := by
  decide

/-- C5 amended: the first observation records `seq` as `last_seq` without
counting it, but still emits (a loss of 0, since `received = 0` passes the
`received % 50 == 0` check); counting observations from 0, an emission occurs
at observation k exactly when `k % 50 = 0`, i.e. on the first observation and
then on every 50th received observation. -/
theorem stats_emission_schedule (tr : List ℕ) (k : ℕ) (seq : ℕ)
    (hk : k < tr.length) :
    ((emitsTrace initStats tr).getD k none ≠ none ↔ k % 50 = 0) ∧
    (observe initStats seq).2 = some 0 ∧
    (observe initStats seq).1.last_seq = (seq : ℤ) ∧
    (observe initStats seq).1.received = 0 := by
  refine ⟨?_, by simp [observe, initStats, lossPct], by simp [observe,
    initStats], by simp [observe, initStats]⟩
  cases tr with
  | nil => simp at hk
  | cons x xs =>
    have hx : (observe initStats x).1 = ⟨(x : ℤ), 0, 0⟩ := by
      simp [observe, initStats]
    cases k with
    | zero =>
      show (observe initStats x).2 ≠ none ↔ _
      simp [observe, initStats]
    | succ k =>
      show (emitsTrace (observe initStats x).1 xs).getD k none ≠ none ↔ _
      rw [hx, emits_pos_aux xs ⟨(x : ℤ), 0, 0⟩ k (by simp)
        (by simp at hk; omega)]
      simp

/-- Witness for C5: the emission schedule evaluated on a concrete two-packet
trace at position 0. -/
theorem stats_emission_schedule_witness :
    (((emitsTrace initStats [10, 11]).getD 0 none ≠ none ↔ 0 % 50 = 0) ∧
    (observe initStats 10).2 = some 0 ∧
    (observe initStats 10).1.last_seq = ((10 : ℕ) : ℤ) ∧
    (observe initStats 10).1.received = 0) :=
  stats_emission_schedule [10, 11] 0 10 (by decide)

/-- C6: at a stats tick the emitted loss equals
`100 * (expected - received) / expected` when `expected > 0` and 0 when
`expected = 0` (an explicit guard, not a division fault); for example
`expected = 100, received = 50` gives 50. -/
theorem loss_formula (e r : ℕ) :
    (0 < e → lossPct e r = 100 * ((e : ℚ) - r) / e) ∧
    (e = 0 → lossPct e r = 0) ∧
    lossPct 100 50 = 50 ∧ lossPct 0 r = 0 := by
  refine ⟨fun h => ?_, fun h => ?_, by norm_num [lossPct], by simp [lossPct]⟩
  · rw [lossPct, if_pos h]
    ring
  · subst h
    simp [lossPct]

/-- Witness for C6: the loss formula at `expected = 100, received = 50`. -/
theorem loss_formula_witness :
    0 < (100 : ℕ) ∧
    lossPct 100 50 = 100 * (((100 : ℕ) : ℚ) - ((50 : ℕ) : ℚ)) /
      ((100 : ℕ) : ℚ) :=
  ⟨by norm_num, (loss_formula 100 50).1 (by norm_num)⟩

/-- Repeated identical sequence bytes leave `expected` unchanged and add one
to `received` per packet. -/
theorem observeTrace_dup (n : ℕ) :
    ∀ st : Stats, st.last_seq = 11 →
      observeTrace st (List.replicate n 11) =
        ⟨11, st.expected, st.received + n⟩ := by
  induction n with
  | zero =>
    intro st h
    cases st
    simp_all [observeTrace]
  | succ n ih =>
    intro st h
    rw [List.replicate_succ]
    show observeTrace (observe st 11).1 (List.replicate n 11) = _
    have he : (observe st 11).1 = ⟨11, st.expected, st.received + 1⟩ := by
      rw [observe_fst_of_ne st 11 (by rw [h]; decide)]
      rw [h]
      simp
    rw [he, ih ⟨11, st.expected, st.received + 1⟩ rfl]
    have hc : st.received + 1 + n = st.received + (n + 1) := by omega
    rw [hc]

/-- Fifty observations: 10 once, then 11 forty-nine times; the 49 duplicates
each add 0 to `expected` and 1 to `received`. -/
def dupTrace : List ℕ := 10 :: 11 :: List.replicate 48 11

/-- One observation unfolds the trace by one step. -/
theorem observeTrace_cons (st : Stats) (x : ℕ) (xs : List ℕ) :
    observeTrace st (x :: xs) = observeTrace (observe st x).1 xs := rfl

set_option maxRecDepth 4000 in
/-- C10: when a sequence number repeats immediately, the tracker adds
`diff = 0` to `expected` while still incrementing `received`, so `received`
overtakes `expected`; after `dupTrace` the state is
`expected = 1, received = 49`, and the next duplicate is the 50th received
observation, a stats tick that emits the strictly negative loss -4900 even
though `expected = 1 > 0`. -/
theorem duplicate_seq_negative_loss :
    (observe ⟨11, 1, 1⟩ 11).1.expected = 1 ∧
    (observe ⟨11, 1, 1⟩ 11).1.received = 2 ∧
    observeTrace initStats dupTrace = ⟨11, 1, 49⟩ ∧
    (observe (observeTrace initStats dupTrace) 11).2 =
      some (lossPct 1 50) ∧
    (observeTrace initStats dupTrace).expected > 0 ∧
    lossPct 1 50 = -4900 ∧ lossPct 1 50 < 0 := by
  have he : (observe (observe initStats 10).1 11).1 = ⟨11, 1, 1⟩ := by
    decide
  have h3 : observeTrace initStats dupTrace = ⟨11, 1, 49⟩ := by
    show observeTrace initStats (10 :: 11 :: List.replicate 48 11) = _
    rw [observeTrace_cons, observeTrace_cons, he,
      observeTrace_dup 48 ⟨11, 1, 1⟩ rfl]
  refine ⟨by decide, by decide, h3, ?_, by rw [h3]; decide,
    by norm_num [lossPct], by norm_num [lossPct]⟩
  rw [h3, observe_snd_of_ne ⟨11, 1, 49⟩ 11 (by decide)]
  norm_num

/-!
### Command surface (`MainWindow.send_cmd`, lines 219-229)

The decode-relevant state of the worker: the byte accumulator (line 37), the
sequence tracker (lines 38-40), and the stats clock `start_t` (line 41).
`send_cmd` only touches this state in the `'b'` branch (lines 222-225):
`self.ble_worker.start_t = time.time()` and `self.ble_worker.received = 0`.
The `'s'` and `'d'` branches (lines 226-229) only update the status label.
-/

structure WorkerState where
  rx_buffer : List ℕ
  last_seq : ℤ
  expected : ℕ
  received : ℕ
  start_t : ℚ
  deriving DecidableEq, Repr

/-- Lines 219-229: the effect of `send_cmd(char)` on the decode state, with
`now` the value of `time.time()`. -/
def send_cmd (c : Char) (now : ℚ) (w : WorkerState) : WorkerState :=
  if c = 'b' then { w with start_t := now, received := 0 } else w

/-- C4 counterexample: sending `'b'` does not zero `expected` and does not
clear `last_seq` — only `received` (and the clock) is reset. -/
theorem send_cmd_not_full_reset :
    ¬((send_cmd 'b' 1 ⟨[5], 7, 5, 3, 0⟩).expected = 0 ∧
      (send_cmd 'b' 1 ⟨[5], 7, 5, 3, 0⟩).last_seq = -1) := by
  decide

/-- C4 amended: sending `'b'` resets only the `received` counter (and restarts
the rate clock), leaving `expected`, `last_seq` and the byte accumulator
untouched, and sending `'s'` or `'d'` mutates no decode state at all. -/
theorem send_cmd_effect (c : Char) (now : ℚ) (w : WorkerState) :
    (c = 'b' → send_cmd c now w = { w with start_t := now, received := 0 }) ∧
    (c = 's' ∨ c = 'd' → send_cmd c now w = w) := by
  constructor
  · intro h
    rw [send_cmd, if_pos h]
  · rintro (h | h) <;> subst h <;> rw [send_cmd, if_neg (by decide)]

/-- Witness for C4: the `'b'` and `'s'` effects on a concrete state. -/
theorem send_cmd_effect_witness :
    ('b' = 'b') ∧
    send_cmd 'b' 3 ⟨[1, 2], 9, 4, 7, 0⟩ =
      { (⟨[1, 2], 9, 4, 7, 0⟩ : WorkerState) with
        start_t := 3, received := 0 } ∧
    ('s' = 's' ∨ 's' = 'd') ∧
    send_cmd 's' 3 ⟨[1, 2], 9, 4, 7, 0⟩ = ⟨[1, 2], 9, 4, 7, 0⟩ :=
  ⟨rfl, (send_cmd_effect 'b' 3 ⟨[1, 2], 9, 4, 7, 0⟩).1 rfl,
   Or.inl rfl, (send_cmd_effect 's' 3 ⟨[1, 2], 9, 4, 7, 0⟩).2 (Or.inl rfl)⟩

/-!
### SampleSink (`deque(maxlen=2500)`, lines 129 and 245-249)

`data_queue = deque(maxlen=2500)`: appending to a full bounded deque silently
evicts the oldest entry.  `update_plot` pops from the left until the deque is
empty, collecting everything in arrival order.
-/

structure SampleSink where
  capacity : ℕ
  buf : List (List ℚ)
  deriving DecidableEq

/-- Line 116-117 producer side: `data_queue.append(frame)`; a full deque
drops its oldest (leftmost) entries down to `capacity`. -/
def SampleSink.push (s : SampleSink) (v : List ℚ) : SampleSink :=
  { s with buf := (s.buf ++ [v]).drop ((s.buf ++ [v]).length - s.capacity) }

/-- Appending a whole list of sample vectors in order. -/
def SampleSink.pushAll (s : SampleSink) (vs : List (List ℚ)) : SampleSink :=
  vs.foldl SampleSink.push s

/-- Lines 246-249 consumer side: pop left until `IndexError`, returning the
buffered vectors in arrival order and leaving the deque empty. -/
def SampleSink.drainAll (s : SampleSink) : List (List ℚ) × SampleSink :=
  (s.buf, { s with buf := [] })

/-- Line 129: `deque(maxlen=2500)` starts empty. -/
def emptySink (c : ℕ) : SampleSink := ⟨c, []⟩

/-- Pushing a list of vectors keeps exactly the most recent `capacity` of the
old buffer followed by the new vectors. -/
theorem pushAll_buf (vs : List (List ℚ)) :
    ∀ (b : List (List ℚ)) (C : ℕ), b.length ≤ C →
      SampleSink.pushAll ⟨C, b⟩ vs =
        ⟨C, (b ++ vs).drop ((b ++ vs).length - C)⟩ := by
  induction vs with
  | nil =>
    intro b C hb
    show (⟨C, b⟩ : SampleSink) = _
    simp [Nat.sub_eq_zero_of_le hb]
  | cons v vs ih =>
    intro b C hb
    show SampleSink.pushAll (SampleSink.push ⟨C, b⟩ v) vs = _
    have hpush : SampleSink.push ⟨C, b⟩ v =
        ⟨C, (b ++ [v]).drop (b.length + 1 - C)⟩ := by
      simp [SampleSink.push]
    rw [hpush, ih _ C (by simp [List.length_drop]; omega)]
    have l1 : (b ++ [v]).length = b.length + 1 := by simp
    have hle : b.length + 1 - C ≤ (b ++ [v]).length := by omega
    rw [← List.drop_append_of_le_length hle, List.drop_drop]
    have hassoc : (b ++ [v]) ++ vs = b ++ v :: vs := by
      simp
    rw [hassoc]
    have l2 : (b ++ v :: vs).length = b.length + 1 + vs.length := by
      rw [List.length_append, List.length_cons]
      omega
    have l3 : ((b ++ v :: vs).drop (b.length + 1 - C)).length =
        (b ++ v :: vs).length - (b.length + 1 - C) := by
      rw [List.length_drop]
    have hidx : b.length + 1 - C +
        (((b ++ v :: vs).drop (b.length + 1 - C)).length - C) =
        (b ++ v :: vs).length - C := by
      omega
    rw [hidx]

/-- C8: pushing 2505 vectors into the capacity-2500 sink and draining returns
exactly the 2500 most recent vectors in arrival order and empties the sink;
draining an empty sink returns the empty sequence. -/
theorem sample_sink_overflow (vs : List (List ℚ)) (h : vs.length = 2505) :
    (SampleSink.pushAll (emptySink 2500) vs).drainAll =
      (vs.drop 5, emptySink 2500) ∧
    (emptySink 2500).drainAll = ([], emptySink 2500) := by
  refine ⟨?_, rfl⟩
  have hp := pushAll_buf vs [] 2500 (by simp)
  simp only [List.nil_append] at hp
  rw [h] at hp
  norm_num at hp
  show (SampleSink.pushAll ⟨2500, []⟩ vs).drainAll = _
  rw [hp]
  rfl

/-- Witness for C8: overflow behaviour on 2505 copies of the zero vector. -/
theorem sample_sink_overflow_witness :
    (List.replicate 2505 (List.replicate 8 (0 : ℚ))).length = 2505 ∧
    ((SampleSink.pushAll (emptySink 2500)
        (List.replicate 2505 (List.replicate 8 (0 : ℚ)))).drainAll =
      ((List.replicate 2505 (List.replicate 8 (0 : ℚ))).drop 5,
       emptySink 2500) ∧
     (emptySink 2500).drainAll = ([], emptySink 2500)) :=
  ⟨by rw [List.length_replicate],
   sample_sink_overflow (List.replicate 2505 (List.replicate 8 (0 : ℚ)))
     (by rw [List.length_replicate])⟩

end EEG
